import Mathlib

/-!
Verification of the range min/max query structure in `src/plot_explicit_2d.cpp`
(`plot::ExplicitSingleValueCurve2D`).

The embedding models C++ `double` by `ℚ` (all algorithmic decisions are order
comparisons and linear interpolation, which are exact over `ℚ`), `std::optional`
by `Option`, and the flat `intervals_` array by a function `ℕ → Interval`
together with the allocated size; an array access past the allocated size
(undefined behaviour in the C++) is reported as `QueryResult.outOfBounds`.
Out-of-range reads of `y_values_` during construction are modelled as gaps.
-/

namespace Plot

/-- The constructor data of `ExplicitSingleValueCurve2D`: strictly increasing
x samples and the positionally aligned optional y values. -/
structure ExplicitSingleValueCurve2D where
  x_values : List ℚ
  y_values : List (Option ℚ)
deriving DecidableEq

/-- The constructor preconditions (the `PLOT_ASSERT`s): equal lengths, non-empty
input, strictly increasing x values (checked pairwise on adjacent elements). -/
def Valid (c : ExplicitSingleValueCurve2D) : Prop :=
  c.x_values.length = c.y_values.length ∧
  c.x_values ≠ [] ∧
  List.Chain' (fun a b => a < b) c.x_values

/-- Executable check of the strict-increase assertion loop of the constructor. -/
def chainLtCheck : List ℚ → Bool
  | [] => true
  | [_] => true
  | a :: b :: t => (decide (a < b)) && chainLtCheck (b :: t)

theorem chainLtCheck_iff : ∀ l : List ℚ, chainLtCheck l = true ↔ List.Chain' (fun a b => a < b) l
  | [] => by simp [chainLtCheck]
  | [_] => by simp [chainLtCheck]
  | a :: b :: t => by
    rw [List.chain'_cons, ← chainLtCheck_iff (b :: t)]
    simp [chainLtCheck]

instance (c : ExplicitSingleValueCurve2D) : Decidable (Valid c) :=
  decidable_of_iff
    (c.x_values.length = c.y_values.length ∧ c.x_values ≠ [] ∧
      chainLtCheck c.x_values = true)
    (by unfold Valid; rw [chainLtCheck_iff])

/-- Read of `(*y_values_)[i]`; reads past the end (undefined behaviour in the
C++ bottom-layer fill for non-power-of-two sizes) are modelled as a gap. -/
def yread (ys : List (Option ℚ)) (i : ℕ) : Option ℚ := ys.getD i none

/-- Read of `(*x_values_)[i]`; all uses are guarded in bounds. -/
def xread (xs : List ℚ) (i : ℕ) : ℚ := xs.getD i 0

/-- The `while (i > 0)` loop of `CeilingLog2`: counts the bits of `i` and tracks
whether `i` is a power of two (no set bit below the leading one). The loop halves
`i` each iteration, so it runs at most `i` times; `fuel` is kept structural (and
instantiated with `i` itself) so that the kernel can evaluate the definition. -/
def ceilingLog2Loop : ℕ → ℕ → ℕ → Bool → ℕ × Bool
  | 0, _, k, is_power_of_2 => (k, is_power_of_2)
  | fuel + 1, i, k, is_power_of_2 =>
    if 0 < i then
      ceilingLog2Loop fuel (i / 2) (k + 1)
        (if 1 < i ∧ i % 2 = 1 then false else is_power_of_2)
    else
      (k, is_power_of_2)

/-- `CeilingLog2(i)` = ⌈log2 i⌉. The C++ returns `int` and gives −1 for `i = 0`;
the constructor guarantees `i ≥ 1`, for which the result is non-negative, so the
ℕ-valued model (with truncated subtraction) agrees on every reachable input. -/
def CeilingLog2 (i : ℕ) : ℕ :=
  let r := ceilingLog2Loop i i 0 true
  if r.2 then r.1 - 1 else r.1

/-- One node of the `intervals_` array. -/
structure Interval where
  lo_idx : ℕ
  hi_idx : ℕ
  min_max : Option (ℚ × ℚ)
deriving DecidableEq

/-- `GetOneOf`: apply `comp_func` to the present values, keep a single present
value, or return nothing. -/
def GetOneOf (a b : Option ℚ) (comp_func : ℚ → ℚ → ℚ) : Option ℚ :=
  match a, b with
  | some x, some y => some (comp_func x y)
  | some x, none => some x
  | none, some y => some y
  | none, none => none

/-- `GetMinMax`: the gap-aware (min, max) of two optional scalars. -/
def GetMinMax (a b : Option ℚ) : Option (ℚ × ℚ) :=
  match a, b with
  | some x, some y => some (min x y, max x y)
  | some x, none => some (x, x)
  | none, some y => some (y, y)
  | none, none => none

/-- The gap-aware merge of two optional (min, max) pairs; this is the four-way
case split written out inline both in the upper-layer fill of `FillIntervals`
and in the straddling case of `GetMinMaxOverIndexInterval`. -/
def mergeMM : Option (ℚ × ℚ) → Option (ℚ × ℚ) → Option (ℚ × ℚ)
  | some a, some b => some (min a.1 b.1, max a.2 b.2)
  | some a, none => some a
  | none, some b => some b
  | none, none => none

/-- A single optional value as an optional (min, max) pair. -/
def toMM (y : Option ℚ) : Option (ℚ × ℚ) := y.map (fun v => (v, v))

/-- `make_unique<Interval[]>` value-initializes every node. -/
def defaultInterval : Interval := ⟨0, 0, none⟩

/-- The bottom-layer loop of `FillIntervals`: starting at node index `i` with
running `interval_start`, writes `count` leaf nodes of width `w`, each computed
directly from `y_values_`. -/
def fillBottomLoop (ys : List (Option ℚ)) (w : ℕ) :
    ℕ → ℕ → ℕ → (ℕ → Interval) → (ℕ → Interval)
  | 0, _, _, store => store
  | count + 1, i, interval_start, store =>
    let hi := interval_start + w - 1
    let node : Interval :=
      ⟨interval_start, hi, GetMinMax (yread ys interval_start) (yread ys hi)⟩
    fillBottomLoop ys w count (i + 1) (hi + 1) (Function.update store i node)

/-- The inner loop of the higher-layer fill of `FillIntervals`: writes `count`
nodes of width `w` starting at node index `i`, each combining its children at
`2*i+1`, `2*i+2` with the gap-aware merge. -/
def fillUpperLoop (w : ℕ) : ℕ → ℕ → ℕ → (ℕ → Interval) → (ℕ → Interval)
  | 0, _, _, store => store
  | count + 1, i, interval_start, store =>
    let hi := interval_start + w - 1
    let node : Interval :=
      ⟨interval_start, hi, mergeMM (store (2 * i + 1)).min_max (store (2 * i + 2)).min_max⟩
    fillUpperLoop w count (i + 1) (hi + 1) (Function.update store i node)

/-- The outer loop `for (layer = k - 2; layer >= 0; --layer)`: called with the
number of layers still to process; `fillLayersDown k (l + 1)` processes layer
`l` and recurses. -/
def fillLayersDown (k : ℕ) : ℕ → (ℕ → Interval) → (ℕ → Interval)
  | 0, store => store
  | l + 1, store =>
    fillLayersDown k l (fillUpperLoop (2 ^ (k - l)) (2 ^ l) (2 ^ l - 1) 0 store)

/-- `FillIntervals`: fill the bottom layer (layer `k − 1`, node indices from
`2^(k-1) − 1`, width `1 << (k - layer)` = 2) from `y_values_`, then the layers
`k − 2` down to `0` by combining children. -/
def FillIntervals (c : ExplicitSingleValueCurve2D) : ℕ → Interval :=
  let k := CeilingLog2 c.y_values.length
  let bottom :=
    fillBottomLoop c.y_values (2 ^ (k - (k - 1))) (2 ^ (k - 1)) (2 ^ (k - 1) - 1) 0
      (fun _ => defaultInterval)
  fillLayersDown k (k - 1) bottom

/-- `num_intervals = (1 << k) - 1` with `k = CeilingLog2(y_values_->size())`. -/
def numIntervals (c : ExplicitSingleValueCurve2D) : ℕ :=
  2 ^ CeilingLog2 c.y_values.length - 1

/-- Contents of the `intervals_` array after construction: value-initialized,
and filled by `FillIntervals` only when `y_values_->size() > 1`. -/
def intervals (c : ExplicitSingleValueCurve2D) : ℕ → Interval :=
  if 1 < c.y_values.length then FillIntervals c else fun _ => defaultInterval

/-- Result of a query: a value, or one of the two ways the model can detect
that the C++ would misbehave (an `intervals_` access past the allocation, or
recursion deeper than the fuel bound, which never happens on tree-shaped data). -/
inductive QueryResult where
  | ok (value : Option (ℚ × ℚ))
  | outOfBounds
  | outOfFuel
deriving DecidableEq

/-- `intervals_[idx]`, with the bounds check that the C++ array access omits. -/
def readI (c : ExplicitSingleValueCurve2D) (idx : ℕ) : Option Interval :=
  if idx < numIntervals c then some (intervals c idx) else none

/-- Body of `GetMinMaxOverIndexInterval(lo_idx, hi_idx, interval_idx)`, with an
explicit fuel for the (tree-depth bounded) recursion. -/
def queryIdx (c : ExplicitSingleValueCurve2D) : ℕ → ℕ → ℕ → ℕ → QueryResult
  | 0, _, _, _ => .outOfFuel
  | fuel + 1, lo_idx, hi_idx, interval_idx =>
    match readI c interval_idx with
    | none => .outOfBounds
    | some node =>
      if node.lo_idx = lo_idx ∧ node.hi_idx = hi_idx then
        .ok node.min_max
      else if lo_idx = hi_idx then
        .ok (toMM (yread c.y_values lo_idx))
      else
        match readI c (2 * interval_idx + 1), readI c (2 * interval_idx + 2) with
        | some child1, some child2 =>
          if child1.lo_idx ≤ lo_idx ∧ hi_idx ≤ child1.hi_idx then
            queryIdx c fuel lo_idx hi_idx (2 * interval_idx + 1)
          else if child2.lo_idx ≤ lo_idx ∧ hi_idx ≤ child2.hi_idx then
            queryIdx c fuel lo_idx hi_idx (2 * interval_idx + 2)
          else
            match queryIdx c fuel lo_idx child1.hi_idx (2 * interval_idx + 1),
                  queryIdx c fuel child2.lo_idx hi_idx (2 * interval_idx + 2) with
            | .ok pr1, .ok pr2 => .ok (mergeMM pr1 pr2)
            | .outOfBounds, _ => .outOfBounds
            | .outOfFuel, _ => .outOfFuel
            | _, .outOfBounds => .outOfBounds
            | _, .outOfFuel => .outOfFuel
        | none, _ => .outOfBounds
        | _, none => .outOfBounds

/-- `GetMinMaxOverIndexInterval`, with fuel `⌈log2 n⌉ + 1`, enough for the
recursion depth of every in-contract query (the recursion descends one tree
layer per call). -/
def GetMinMaxOverIndexInterval (c : ExplicitSingleValueCurve2D)
    (lo_idx hi_idx interval_idx : ℕ) : QueryResult :=
  queryIdx c (CeilingLog2 c.y_values.length + 1) lo_idx hi_idx interval_idx

/-- `std::lower_bound(begin, end, xmin) - begin`: the first index whose x value
is ≥ `xmin`, or the length when there is none. -/
def lowerIdx (c : ExplicitSingleValueCurve2D) (xmin : ℚ) : ℕ :=
  c.x_values.findIdx (fun x => decide (xmin ≤ x))

/-- `std::upper_bound(begin, end, xmax) - begin`: the first index whose x value
is > `xmax`, or the length when there is none. -/
def upperIdx (c : ExplicitSingleValueCurve2D) (xmax : ℚ) : ℕ :=
  c.x_values.findIdx (fun x => decide (xmax < x))

/-- The interpolated y value at `xmin` when `xmin` falls strictly between two
samples with present y values (`lo_interp` in `GetMinMaxOverDomainInterval`). -/
def loInterp (c : ExplicitSingleValueCurve2D) (xmin : ℚ) (lo_idx : ℕ) : Option ℚ :=
  if xmin < xread c.x_values lo_idx ∧
      0 < lo_idx ∧
      (yread c.y_values lo_idx).isSome ∧
      (yread c.y_values (lo_idx - 1)).isSome ∧
      xread c.x_values (lo_idx - 1) ≠ xread c.x_values lo_idx then
    some ((yread c.y_values (lo_idx - 1)).getD 0 +
      (xmin - xread c.x_values (lo_idx - 1)) /
        (xread c.x_values lo_idx - xread c.x_values (lo_idx - 1)) *
      ((yread c.y_values lo_idx).getD 0 - (yread c.y_values (lo_idx - 1)).getD 0))
  else none

/-- The interpolated y value at `xmax` when `xmax` falls strictly between two
samples with present y values (`hi_interp` in `GetMinMaxOverDomainInterval`). -/
def hiInterp (c : ExplicitSingleValueCurve2D) (xmax : ℚ) (hi_idx : ℕ) : Option ℚ :=
  if hi_idx < c.x_values.length - 1 ∧
      xread c.x_values hi_idx ≠ xmax ∧
      xmax < xread c.x_values (hi_idx + 1) ∧
      (yread c.y_values hi_idx).isSome ∧
      xread c.x_values (hi_idx + 1) ≠ xread c.x_values hi_idx ∧
      (yread c.y_values (hi_idx + 1)).isSome then
    some ((yread c.y_values hi_idx).getD 0 +
      (xmax - xread c.x_values hi_idx) /
        (xread c.x_values (hi_idx + 1) - xread c.x_values hi_idx) *
      ((yread c.y_values (hi_idx + 1)).getD 0 - (yread c.y_values hi_idx).getD 0))
  else none

/-- `GetMinMaxOverDomainInterval(xmin, xmax)`. -/
def GetMinMaxOverDomainInterval (c : ExplicitSingleValueCurve2D)
    (xmin xmax : ℚ) : QueryResult :=
  let lo_bound := lowerIdx c xmin
  if lo_bound = c.x_values.length then .ok none
  else
    let hi_bound := upperIdx c xmax
    if hi_bound = 0 then .ok none
    else
      let lo_idx := lo_bound
      let hi_idx := hi_bound - 1
      let lo_interp := loInterp c xmin lo_idx
      let hi_interp := hiInterp c xmax hi_idx
      if lo_idx ≤ hi_idx then
        match GetMinMaxOverIndexInterval c lo_idx hi_idx 0 with
        | .outOfBounds => .outOfBounds
        | .outOfFuel => .outOfFuel
        | .ok (some mm) =>
          let min_interp := GetOneOf lo_interp hi_interp (fun a b => min a b)
          let max_interp := GetOneOf lo_interp hi_interp (fun a b => max a b)
          let actual_min := GetOneOf min_interp (some mm.1) (fun a b => min a b)
          let actual_max := GetOneOf max_interp (some mm.2) (fun a b => max a b)
          match actual_min, actual_max with
          | some mn, some mx => .ok (some (mn, mx))
          | some mn, none => .ok (some (mn, mn))
          | none, some mx => .ok (some (mx, mx))
          | none, none => .ok none
        | .ok none => .ok (GetMinMax lo_interp hi_interp)
      else .ok (GetMinMax lo_interp hi_interp)

/-- Specification-side linear scan: the gap-aware (min, max) of the y values at
indices `lo..hi`, folded left to right. -/
def scanMinMax (ys : List (Option ℚ)) (lo hi : ℕ) : Option (ℚ × ℚ) :=
  (List.range' lo (hi + 1 - lo)).foldr (fun i acc => mergeMM (toMM (yread ys i)) acc) none

/-! ### Basic facts about the gap-aware combinators -/

theorem mergeMM_none_right (a : Option (ℚ × ℚ)) : mergeMM a none = a := by
  cases a <;> rfl

theorem mergeMM_none_left (a : Option (ℚ × ℚ)) : mergeMM none a = a := by
  cases a <;> rfl

theorem mergeMM_assoc (a b c : Option (ℚ × ℚ)) :
    mergeMM (mergeMM a b) c = mergeMM a (mergeMM b c) := by
  cases a <;> cases b <;> cases c <;>
    simp [mergeMM, min_assoc, max_assoc]

theorem mergeMM_eq_none_iff (a b : Option (ℚ × ℚ)) :
    mergeMM a b = none ↔ a = none ∧ b = none := by
  cases a <;> cases b <;> simp [mergeMM]

theorem GetMinMax_eq_mergeMM_toMM (a b : Option ℚ) :
    GetMinMax a b = mergeMM (toMM a) (toMM b) := by
  cases a <;> cases b <;> simp [GetMinMax, toMM, mergeMM]

/-! ### Facts about the linear-scan specification -/

theorem scanMinMax_singleton (ys : List (Option ℚ)) (i : ℕ) :
    scanMinMax ys i i = toMM (yread ys i) := by
  simp [scanMinMax, List.range', mergeMM_none_right]

theorem foldr_mergeMM_init (g : ℕ → Option (ℚ × ℚ)) (init : Option (ℚ × ℚ)) :
    ∀ l : List ℕ,
      l.foldr (fun i acc => mergeMM (g i) acc) init =
        mergeMM (l.foldr (fun i acc => mergeMM (g i) acc) none) init
  | [] => by simp [mergeMM_none_left]
  | i :: t => by
    simp only [List.foldr_cons, foldr_mergeMM_init g init t, mergeMM_assoc]

theorem scanMinMax_split (ys : List (Option ℚ)) {lo m hi : ℕ}
    (h1 : lo ≤ m) (h2 : m < hi) :
    scanMinMax ys lo hi = mergeMM (scanMinMax ys lo m) (scanMinMax ys (m + 1) hi) := by
  have hrange : List.range' lo (hi + 1 - lo) =
      List.range' lo (m + 1 - lo) ++ List.range' (m + 1) (hi + 1 - (m + 1)) := by
    have h := List.range'_append lo (m + 1 - lo) (hi + 1 - (m + 1)) 1
    rw [show lo + 1 * (m + 1 - lo) = m + 1 by omega,
      show hi + 1 - (m + 1) + (m + 1 - lo) = hi + 1 - lo by omega] at h
    exact h.symm
  unfold scanMinMax
  rw [hrange, List.foldr_append, foldr_mergeMM_init]

theorem scanMinMax_pair (ys : List (Option ℚ)) (i : ℕ) :
    scanMinMax ys i (i + 1) = GetMinMax (yread ys i) (yread ys (i + 1)) := by
  rw [scanMinMax_split ys (Nat.le_refl i) (Nat.lt_succ_self i),
    scanMinMax_singleton, scanMinMax_singleton, GetMinMax_eq_mergeMM_toMM]

theorem scanMinMax_eq_none_iff (ys : List (Option ℚ)) :
    ∀ n lo, scanMinMax ys lo (lo + n) = none ↔
      ∀ i, lo ≤ i → i ≤ lo + n → yread ys i = none
  | 0, lo => by
    rw [Nat.add_zero, scanMinMax_singleton]
    constructor
    · intro h i h1 h2
      have : i = lo := by omega
      subst this
      simpa [toMM] using h
    · intro h
      simp [toMM, h lo (Nat.le_refl lo) (Nat.le_refl lo)]
  | n + 1, lo => by
    rw [show lo + (n + 1) = (lo + 1) + n by omega,
      scanMinMax_split ys (Nat.le_refl lo) (by omega),
      mergeMM_eq_none_iff, scanMinMax_singleton,
      scanMinMax_eq_none_iff ys n (lo + 1)]
    constructor
    · rintro ⟨h0, h1⟩ i hi1 hi2
      rcases Nat.eq_or_lt_of_le hi1 with h | h
      · subst h
        simpa [toMM] using h0
      · exact h1 i h (by omega)
    · intro h
      refine ⟨?_, fun i h1 h2 => h i (by omega) (by omega)⟩
      simp [toMM, h lo (Nat.le_refl lo) (by omega)]

/-! ### Characterization of `CeilingLog2` -/

/-- Specification-side test for powers of two, following the bit structure the
loop of `CeilingLog2` inspects. -/
def isPow2 : ℕ → Bool
  | 0 => false
  | 1 => true
  | n + 2 => (decide ((n + 2) % 2 = 0)) && isPow2 ((n + 2) / 2)
termination_by n => n
decreasing_by omega

theorem ceilingLog2Loop_zero (fuel k : ℕ) (p : Bool) :
    ceilingLog2Loop fuel 0 k p = (k, p) := by
  cases fuel <;> simp [ceilingLog2Loop]

theorem ceilingLog2Loop_spec :
    ∀ i fuel k p, 0 < i → i ≤ fuel →
      ceilingLog2Loop fuel i k p = (k + Nat.log2 i + 1, p && isPow2 i)
  | 1, fuel, k, p, _, hfuel => by
    obtain ⟨f, rfl⟩ : ∃ f, fuel = f + 1 := ⟨fuel - 1, by omega⟩
    simp [ceilingLog2Loop, ceilingLog2Loop_zero, isPow2, Nat.log2]
  | i + 2, fuel, k, p, _, hfuel => by
    obtain ⟨f, rfl⟩ : ∃ f, fuel = f + 1 := ⟨fuel - 1, by omega⟩
    have hrec : ceilingLog2Loop (f + 1) (i + 2) k p =
        ceilingLog2Loop f ((i + 2) / 2) (k + 1)
          (if 1 < i + 2 ∧ (i + 2) % 2 = 1 then false else p) := by
      simp [ceilingLog2Loop]
    rw [hrec, ceilingLog2Loop_spec ((i + 2) / 2) f (k + 1)
        (if 1 < i + 2 ∧ (i + 2) % 2 = 1 then false else p) (by omega) (by omega)]
    have hlog : Nat.log2 (i + 2) = Nat.log2 ((i + 2) / 2) + 1 := by
      rw [Nat.log2]
      simp [show 2 ≤ i + 2 by omega]
    have hpow : isPow2 (i + 2) = ((decide ((i + 2) % 2 = 0)) && isPow2 ((i + 2) / 2)) := by
      rw [isPow2]
    rcases Nat.even_or_odd (i + 2) with he | ho
    · have h2 : (i + 2) % 2 = 0 := Nat.even_iff.mp he
      simp [h2, hlog, hpow]
      omega
    · have h2 : (i + 2) % 2 = 1 := Nat.odd_iff.mp ho
      simp [h2, hlog, hpow]
      omega
termination_by i => i
decreasing_by omega

theorem CeilingLog2_eq (i : ℕ) (h : 0 < i) :
    CeilingLog2 i = if isPow2 i then Nat.log2 i else Nat.log2 i + 1 := by
  have hs := ceilingLog2Loop_spec i i 0 true h (Nat.le_refl i)
  simp only [CeilingLog2, hs]
  cases hp : isPow2 i
  · simp
  · simp

theorem isPow2_iff : ∀ i, 0 < i → (isPow2 i = true ↔ 2 ^ Nat.log2 i = i)
  | 1, _ => by simp [isPow2, Nat.log2]
  | i + 2, _ => by
    have hlog : Nat.log2 (i + 2) = Nat.log2 ((i + 2) / 2) + 1 := by
      rw [Nat.log2]
      simp [show 2 ≤ i + 2 by omega]
    rw [show isPow2 (i + 2) = ((decide ((i + 2) % 2 = 0)) && isPow2 ((i + 2) / 2)) from by
        rw [isPow2],
      hlog]
    have ih := isPow2_iff ((i + 2) / 2) (by omega)
    constructor
    · intro h
      simp only [Bool.and_eq_true, decide_eq_true_eq] at h
      obtain ⟨h2, hp⟩ := h
      rw [pow_succ, ih.mp hp]
      omega
    · intro h
      rw [pow_succ] at h
      have h2 : (i + 2) % 2 = 0 := by omega
      have hhalf : 2 ^ Nat.log2 ((i + 2) / 2) = (i + 2) / 2 := by omega
      rw [Bool.and_eq_true]
      exact ⟨by rw [h2]; rfl, ih.mpr hhalf⟩
termination_by i => i
decreasing_by omega

theorem le_pow_CeilingLog2 (n : ℕ) (h : 0 < n) : n ≤ 2 ^ CeilingLog2 n := by
  rw [CeilingLog2_eq n h]
  split
  · next hp => exact Nat.le_of_eq ((isPow2_iff n h).mp hp).symm
  · exact Nat.le_of_lt Nat.lt_log2_self

theorem one_le_CeilingLog2 (n : ℕ) (h : 2 ≤ n) : 1 ≤ CeilingLog2 n := by
  rw [CeilingLog2_eq n (by omega)]
  have hlog : 1 ≤ Nat.log2 n := (Nat.le_log2 (by omega)).mpr (by omega)
  split
  · exact hlog
  · omega

/-! ### Characterization of the constructed interval tree -/

theorem fillBottomLoop_out (ys : List (Option ℚ)) (w : ℕ) (hw : 1 ≤ w) :
    ∀ count i0 start store t,
      fillBottomLoop ys w count i0 start store t =
        if i0 ≤ t ∧ t < i0 + count then
          Interval.mk (start + (t - i0) * w) (start + (t - i0) * w + w - 1)
            (GetMinMax (yread ys (start + (t - i0) * w))
              (yread ys (start + (t - i0) * w + w - 1)))
        else store t
  | 0, i0, start, store, t => by
    rw [fillBottomLoop, if_neg (by omega)]
  | count + 1, i0, start, store, t => by
    show fillBottomLoop ys w count (i0 + 1) (start + w - 1 + 1) _ t = _
    rw [show start + w - 1 + 1 = start + w by omega,
      fillBottomLoop_out ys w hw count (i0 + 1) (start + w) _ t]
    rcases Nat.lt_trichotomy t i0 with hlt | heq | hgt
    · rw [if_neg (by omega), if_neg (by omega), Function.update_noteq (by omega)]
    · subst heq
      rw [if_neg (by omega), if_pos (by omega), Function.update_same]
      simp
    · by_cases hin : t < i0 + (count + 1)
      · rw [if_pos (by omega), if_pos (by omega)]
        obtain ⟨d, hd⟩ : ∃ d, t - i0 = d + 1 := ⟨t - i0 - 1, by omega⟩
        have h1 : t - (i0 + 1) = d := by omega
        have h2 : start + w + d * w = start + (d + 1) * w := by ring
        rw [h1, hd, h2]
      · rw [if_neg (by omega), if_neg (by omega), Function.update_noteq (by omega)]

theorem fillUpperLoop_out (w : ℕ) (hw : 1 ≤ w) :
    ∀ count i0 start store t, count ≤ i0 + 1 →
      fillUpperLoop w count i0 start store t =
        if i0 ≤ t ∧ t < i0 + count then
          Interval.mk (start + (t - i0) * w) (start + (t - i0) * w + w - 1)
            (mergeMM (store (2 * t + 1)).min_max (store (2 * t + 2)).min_max)
        else store t
  | 0, i0, start, store, t, _ => by
    rw [fillUpperLoop, if_neg (by omega)]
  | count + 1, i0, start, store, t, hcount => by
    show fillUpperLoop w count (i0 + 1) (start + w - 1 + 1) _ t = _
    rw [show start + w - 1 + 1 = start + w by omega,
      fillUpperLoop_out w hw count (i0 + 1) (start + w) _ t (by omega)]
    rcases Nat.lt_trichotomy t i0 with hlt | heq | hgt
    · rw [if_neg (by omega), if_neg (by omega), Function.update_noteq (by omega)]
    · subst heq
      rw [if_neg (by omega), if_pos (by omega), Function.update_same]
      simp
    · by_cases hin : t < i0 + (count + 1)
      · rw [if_pos (by omega), if_pos (by omega),
          Function.update_noteq (by omega), Function.update_noteq (by omega)]
        obtain ⟨d, hd⟩ : ∃ d, t - i0 = d + 1 := ⟨t - i0 - 1, by omega⟩
        have h1 : t - (i0 + 1) = d := by omega
        have h2 : start + w + d * w = start + (d + 1) * w := by ring
        rw [h1, hd, h2]
      · rw [if_neg (by omega), if_neg (by omega), Function.update_noteq (by omega)]

/-- The intended contents of the tree node at layer `L`, position `j`: it covers
index range `[j·2^(k−L), (j+1)·2^(k−L) − 1]` and stores the gap-aware min/max
of the y values over that range (indices ≥ n reading as gaps). -/
def properNode (k : ℕ) (ys : List (Option ℚ)) (L j : ℕ) : Interval :=
  ⟨j * 2 ^ (k - L), (j + 1) * 2 ^ (k - L) - 1,
    scanMinMax ys (j * 2 ^ (k - L)) ((j + 1) * 2 ^ (k - L) - 1)⟩

theorem properNode_merge (k : ℕ) (ys : List (Option ℚ)) (L j : ℕ) (hL : L + 1 ≤ k) :
    mergeMM (properNode k ys (L + 1) (2 * j)).min_max
        (properNode k ys (L + 1) (2 * j + 1)).min_max =
      scanMinMax ys (j * 2 ^ (k - L)) ((j + 1) * 2 ^ (k - L) - 1) := by
  have hw : 1 ≤ 2 ^ (k - (L + 1)) := Nat.one_le_two_pow
  have hkl : k - L = (k - (L + 1)) + 1 := by omega
  unfold properNode
  rw [hkl, pow_succ]
  have h1 : j * (2 ^ (k - (L + 1)) * 2) = 2 * j * 2 ^ (k - (L + 1)) := by ring
  have h2 : (j + 1) * (2 ^ (k - (L + 1)) * 2) = (2 * j + 1 + 1) * 2 ^ (k - (L + 1)) := by ring
  have e1 : (2 * j + 1) * 2 ^ (k - (L + 1)) = 2 * j * 2 ^ (k - (L + 1)) + 2 ^ (k - (L + 1)) := by
    ring
  have e2 : (2 * j + 1 + 1) * 2 ^ (k - (L + 1)) =
      2 * j * 2 ^ (k - (L + 1)) + 2 ^ (k - (L + 1)) + 2 ^ (k - (L + 1)) := by
    ring
  rw [h1, h2]
  rw [scanMinMax_split ys
    (show 2 * j * 2 ^ (k - (L + 1)) ≤ (2 * j + 1) * 2 ^ (k - (L + 1)) - 1 by omega)
    (show (2 * j + 1) * 2 ^ (k - (L + 1)) - 1 < (2 * j + 1 + 1) * 2 ^ (k - (L + 1)) - 1 by
      omega)]
  rw [show (2 * j + 1) * 2 ^ (k - (L + 1)) - 1 + 1 = (2 * j + 1) * 2 ^ (k - (L + 1)) by omega]

theorem fillLayersDown_out (k : ℕ) (ys : List (Option ℚ)) :
    ∀ cnt store, cnt ≤ k - 1 →
      (∀ L j, cnt ≤ L → L ≤ k - 1 → j < 2 ^ L →
        store (2 ^ L - 1 + j) = properNode k ys L j) →
      ∀ L j, L ≤ k - 1 → j < 2 ^ L →
        fillLayersDown k cnt store (2 ^ L - 1 + j) = properNode k ys L j
  | 0, store, _, hstore, L, j, hL, hj => by
    rw [fillLayersDown]
    exact hstore L j (Nat.zero_le L) hL hj
  | cnt + 1, store, hcnt, hstore, L, j, hL, hj => by
    rw [fillLayersDown]
    refine fillLayersDown_out k ys cnt _ (by omega) ?_ L j hL hj
    intro L' j' hL1 hL2 hj'
    rw [fillUpperLoop_out (2 ^ (k - cnt)) Nat.one_le_two_pow (2 ^ cnt) (2 ^ cnt - 1) 0
      store _ (by omega)]
    by_cases hLc : L' = cnt
    · subst hLc
      rw [if_pos (by
        constructor
        · exact Nat.le_add_right _ _
        · have h1 : 1 ≤ 2 ^ L' := Nat.one_le_two_pow
          omega)]
      have ht : 2 ^ L' - 1 + j' - (2 ^ L' - 1) = j' := by
        have h1 : 1 ≤ 2 ^ L' := Nat.one_le_two_pow
        omega
      rw [ht]
      have hc1 : 2 * (2 ^ L' - 1 + j') + 1 = 2 ^ (L' + 1) - 1 + 2 * j' := by
        have h1 : 1 ≤ 2 ^ L' := Nat.one_le_two_pow
        have h2 : 2 ^ (L' + 1) = 2 ^ L' * 2 := pow_succ 2 L'
        omega
      have hc2 : 2 * (2 ^ L' - 1 + j') + 2 = 2 ^ (L' + 1) - 1 + (2 * j' + 1) := by
        have h1 : 1 ≤ 2 ^ L' := Nat.one_le_two_pow
        have h2 : 2 ^ (L' + 1) = 2 ^ L' * 2 := pow_succ 2 L'
        omega
      rw [hc1, hc2,
        hstore (L' + 1) (2 * j') (by omega) (by omega)
          (by
            have h2 : 2 ^ (L' + 1) = 2 ^ L' * 2 := pow_succ 2 L'
            omega),
        hstore (L' + 1) (2 * j' + 1) (by omega) (by omega)
          (by
            have h2 : 2 ^ (L' + 1) = 2 ^ L' * 2 := pow_succ 2 L'
            omega),
        properNode_merge k ys L' j' (by omega)]
      unfold properNode
      rw [Nat.zero_add, show j' * 2 ^ (k - L') + 2 ^ (k - L') - 1 =
        (j' + 1) * 2 ^ (k - L') - 1 by
          have h4 : (j' + 1) * 2 ^ (k - L') = j' * 2 ^ (k - L') + 2 ^ (k - L') := by ring
          omega]
    · have hgt : cnt + 1 ≤ L' := by omega
      rw [if_neg (by
        rintro ⟨h1, h2⟩
        have h3 : 2 ^ (cnt + 1) ≤ 2 ^ L' := Nat.pow_le_pow_right (by omega) hgt
        have h4 : 2 ^ (cnt + 1) = 2 ^ cnt * 2 := pow_succ 2 cnt
        have h5 : 1 ≤ 2 ^ cnt := Nat.one_le_two_pow
        omega)]
      exact hstore L' j' (by omega) hL2 hj'

theorem intervals_eq (c : ExplicitSingleValueCurve2D) (hn : 2 ≤ c.y_values.length) :
    ∀ L j, L ≤ CeilingLog2 c.y_values.length - 1 → j < 2 ^ L →
      intervals c (2 ^ L - 1 + j) =
        properNode (CeilingLog2 c.y_values.length) c.y_values L j := by
  intro L j hL hj
  have hk1 : 1 ≤ CeilingLog2 c.y_values.length := one_le_CeilingLog2 _ hn
  rw [intervals, if_pos (by omega)]
  show fillLayersDown (CeilingLog2 c.y_values.length) (CeilingLog2 c.y_values.length - 1)
    (fillBottomLoop c.y_values (2 ^ (CeilingLog2 c.y_values.length -
        (CeilingLog2 c.y_values.length - 1)))
      (2 ^ (CeilingLog2 c.y_values.length - 1)) (2 ^ (CeilingLog2 c.y_values.length - 1) - 1) 0
      (fun _ => defaultInterval)) (2 ^ L - 1 + j) = _
  set k := CeilingLog2 c.y_values.length with hk
  refine fillLayersDown_out k c.y_values (k - 1) _ (Nat.le_refl _) ?_ L j hL hj
  intro L' j' hL1 hL2 hj'
  have hL' : L' = k - 1 := by omega
  subst hL'
  rw [fillBottomLoop_out c.y_values _ Nat.one_le_two_pow _ _ _ _ _,
    if_pos (by
      constructor
      · exact Nat.le_add_right _ _
      · have h1 : 1 ≤ 2 ^ (k - 1) := Nat.one_le_two_pow
        omega)]
  have ht : 2 ^ (k - 1) - 1 + j' - (2 ^ (k - 1) - 1) = j' := by
    have h1 : 1 ≤ 2 ^ (k - 1) := Nat.one_le_two_pow
    omega
  rw [ht]
  have hw2 : k - (k - 1) = 1 := by omega
  rw [hw2, pow_one]
  unfold properNode
  rw [hw2, pow_one, Nat.zero_add]
  have e1 : j' * 2 + 2 - 1 = j' * 2 + 1 := by omega
  have e2 : (j' + 1) * 2 - 1 = j' * 2 + 1 := by omega
  rw [e1, e2, scanMinMax_pair]

/-! ### Correctness of the recursive index query -/

theorem queryIdx_correct (c : ExplicitSingleValueCurve2D) (hn : 2 ≤ c.y_values.length) :
    ∀ m, 1 ≤ m → m ≤ CeilingLog2 c.y_values.length →
      ∀ j lo hi fuel,
        j < 2 ^ (CeilingLog2 c.y_values.length - m) →
        j * 2 ^ m ≤ lo → lo ≤ hi → hi ≤ (j + 1) * 2 ^ m - 1 → m ≤ fuel →
        queryIdx c fuel lo hi (2 ^ (CeilingLog2 c.y_values.length - m) - 1 + j) =
          .ok (scanMinMax c.y_values lo hi) := by
  set k := CeilingLog2 c.y_values.length with hk
  intro m hm
  induction m, hm using Nat.le_induction with
  | base =>
    intro hmk j lo hi fuel hj hlo hlh hhi hfuel
    obtain ⟨f, rfl⟩ : ∃ f, fuel = f + 1 := ⟨fuel - 1, by omega⟩
    rw [pow_one] at hlo hhi
    have h2L : 1 ≤ (2:ℕ) ^ (k - 1) := Nat.one_le_two_pow
    have hpk : (2:ℕ) ^ k = 2 ^ (k - 1) * 2 := by
      rw [← pow_succ]
      congr 1
      omega
    have hidx : 2 ^ (k - 1) - 1 + j < numIntervals c := by
      rw [numIntervals, ← hk]
      omega
    have hkk : k - (k - 1) = 1 := by omega
    have hnode : intervals c (2 ^ (k - 1) - 1 + j) =
        Interval.mk (j * 2) ((j + 1) * 2 - 1)
          (scanMinMax c.y_values (j * 2) ((j + 1) * 2 - 1)) := by
      rw [intervals_eq c hn (k - 1) j (Nat.le_refl _) hj]
      unfold properNode
      rw [hkk, pow_one]
    have hread : readI c (2 ^ (k - 1) - 1 + j) =
        some (Interval.mk (j * 2) ((j + 1) * 2 - 1)
          (scanMinMax c.y_values (j * 2) ((j + 1) * 2 - 1))) := by
      rw [readI, if_pos hidx, hnode]
    simp only [queryIdx, hread]
    by_cases hex : j * 2 = lo ∧ (j + 1) * 2 - 1 = hi
    · rw [if_pos hex]
      rw [hex.1, hex.2]
    · rw [if_neg hex]
      by_cases heq : lo = hi
      · subst heq
        rw [if_pos rfl, scanMinMax_singleton]
      · exfalso
        exact hex ⟨by omega, by omega⟩
  | succ m hm ih =>
    intro hmk j lo hi fuel hj hlo hlh hhi hfuel
    obtain ⟨f, rfl⟩ : ∃ f, fuel = f + 1 := ⟨fuel - 1, by omega⟩
    have hm_k : m ≤ k := by omega
    have ha : 1 ≤ (2:ℕ) ^ (k - (m + 1)) := Nat.one_le_two_pow
    have hb : 1 ≤ (2:ℕ) ^ (k - m) := Nat.one_le_two_pow
    have hc : 1 ≤ (2:ℕ) ^ m := Nat.one_le_two_pow
    have hpw : (2:ℕ) ^ (k - m) = 2 ^ (k - (m + 1)) * 2 := by
      rw [← pow_succ]
      congr 1
      omega
    have hpm : (2:ℕ) ^ (m + 1) = 2 ^ m * 2 := pow_succ 2 m
    have hpk : (2:ℕ) ^ k = 2 ^ (k - m) * 2 ^ m := by
      rw [← pow_add]
      congr 1
      omega
    have hkm1 : (2:ℕ) ^ (k - m) ≤ 2 ^ (k - 1) := Nat.pow_le_pow_right (by omega) (by omega)
    have hpk1 : (2:ℕ) ^ k = 2 ^ (k - 1) * 2 := by
      rw [← pow_succ]
      congr 1
      omega
    have hidx : 2 ^ (k - (m + 1)) - 1 + j < numIntervals c := by
      rw [numIntervals, ← hk]
      omega
    have hexp : k - (k - (m + 1)) = m + 1 := by omega
    have hnode : readI c (2 ^ (k - (m + 1)) - 1 + j) =
        some (Interval.mk (j * 2 ^ (m + 1)) ((j + 1) * 2 ^ (m + 1) - 1)
          (scanMinMax c.y_values (j * 2 ^ (m + 1)) ((j + 1) * 2 ^ (m + 1) - 1))) := by
      rw [readI, if_pos hidx, intervals_eq c hn (k - (m + 1)) j (by omega) hj]
      unfold properNode
      rw [hexp]
    have hc1i : 2 * (2 ^ (k - (m + 1)) - 1 + j) + 1 = 2 ^ (k - m) - 1 + 2 * j := by omega
    have hc2i : 2 * (2 ^ (k - (m + 1)) - 1 + j) + 2 = 2 ^ (k - m) - 1 + (2 * j + 1) := by
      omega
    have hexp2 : k - (k - m) = m := by omega
    have hj2 : 2 * j + 1 < 2 ^ (k - m) := by omega
    have hcidx1 : 2 ^ (k - m) - 1 + 2 * j < numIntervals c := by
      rw [numIntervals, ← hk]
      have hc2 : 2 * 2 ^ m ≤ 2 ^ (k - m) * 2 ^ m := Nat.mul_le_mul_right _ (by omega)
      omega
    have hcidx2 : 2 ^ (k - m) - 1 + (2 * j + 1) < numIntervals c := by
      rw [numIntervals, ← hk]
      have hc2 : 2 * 2 ^ m ≤ 2 ^ (k - m) * 2 ^ m := Nat.mul_le_mul_right _ (by omega)
      omega
    have hread1 : readI c (2 * (2 ^ (k - (m + 1)) - 1 + j) + 1) =
        some (Interval.mk (2 * j * 2 ^ m) ((2 * j + 1) * 2 ^ m - 1)
          (scanMinMax c.y_values (2 * j * 2 ^ m) ((2 * j + 1) * 2 ^ m - 1))) := by
      rw [hc1i, readI, if_pos hcidx1, intervals_eq c hn (k - m) (2 * j) (by omega) (by omega)]
      unfold properNode
      rw [hexp2]
    have hread2 : readI c (2 * (2 ^ (k - (m + 1)) - 1 + j) + 2) =
        some (Interval.mk ((2 * j + 1) * 2 ^ m) ((2 * j + 1 + 1) * 2 ^ m - 1)
          (scanMinMax c.y_values ((2 * j + 1) * 2 ^ m) ((2 * j + 1 + 1) * 2 ^ m - 1))) := by
      rw [hc2i, readI, if_pos hcidx2,
        intervals_eq c hn (k - m) (2 * j + 1) (by omega) (by omega)]
      unfold properNode
      rw [hexp2]
    have hr1 : j * 2 ^ (m + 1) = 2 * j * 2 ^ m := by
      rw [hpm]
      ring
    have hr2 : (j + 1) * 2 ^ (m + 1) = (2 * j + 1 + 1) * 2 ^ m := by
      rw [hpm]
      ring
    have q1 : (2 * j + 1) * 2 ^ m = 2 * j * 2 ^ m + 2 ^ m := by ring
    have q2 : (2 * j + 1 + 1) * 2 ^ m = 2 * j * 2 ^ m + 2 ^ m + 2 ^ m := by ring
    simp only [queryIdx, hnode]
    by_cases hex : j * 2 ^ (m + 1) = lo ∧ (j + 1) * 2 ^ (m + 1) - 1 = hi
    · rw [if_pos hex, hex.1, hex.2]
    · rw [if_neg hex]
      by_cases heq : lo = hi
      · subst heq
        rw [if_pos rfl, scanMinMax_singleton]
      · rw [if_neg heq]
        simp only [hread1, hread2]
        have hA : 2 * j * 2 ^ m ≤ lo := by
          rw [← hr1]
          exact hlo
        have hB : hi ≤ 2 * j * 2 ^ m + 2 ^ m + 2 ^ m - 1 := by
          rw [← q2, ← hr2]
          exact hhi
        by_cases h1 : 2 * j * 2 ^ m ≤ lo ∧ hi ≤ (2 * j + 1) * 2 ^ m - 1
        · rw [if_pos h1]
          rw [hc1i]
          exact ih hm_k (2 * j) lo hi f (by omega) h1.1 hlh h1.2 (by omega)
        · rw [if_neg h1]
          by_cases h2 : (2 * j + 1) * 2 ^ m ≤ lo ∧ hi ≤ (2 * j + 1 + 1) * 2 ^ m - 1
          · rw [if_pos h2]
            rw [hc2i]
            exact ih hm_k (2 * j + 1) lo hi f (by omega) h2.1 hlh h2.2 (by omega)
          · rw [if_neg h2]
            have hmid1 : (2 * j + 1) * 2 ^ m ≤ hi := by omega
            have hmid2 : lo < (2 * j + 1) * 2 ^ m := by omega
            rw [hc1i, hc2i,
              ih hm_k (2 * j) lo ((2 * j + 1) * 2 ^ m - 1) f (by omega) hA (by omega)
                (Nat.le_refl _) (by omega),
              ih hm_k (2 * j + 1) ((2 * j + 1) * 2 ^ m) hi f (by omega) (Nat.le_refl _)
                (by omega) (by omega) (by omega)]
            have hsplit := scanMinMax_split c.y_values
              (show lo ≤ (2 * j + 1) * 2 ^ m - 1 by omega)
              (show (2 * j + 1) * 2 ^ m - 1 < hi by omega)
            rw [show (2 * j + 1) * 2 ^ m - 1 + 1 = (2 * j + 1) * 2 ^ m by omega] at hsplit
            show QueryResult.ok (mergeMM _ _) = _
            rw [← hsplit]

theorem GetMinMaxOverIndexInterval_correct (c : ExplicitSingleValueCurve2D)
    (hn : 2 ≤ c.y_values.length) (lo hi : ℕ) (hlh : lo ≤ hi)
    (hhi : hi < c.y_values.length) :
    GetMinMaxOverIndexInterval c lo hi 0 = .ok (scanMinMax c.y_values lo hi) := by
  have hk1 : 1 ≤ CeilingLog2 c.y_values.length := one_le_CeilingLog2 _ hn
  have hle : c.y_values.length ≤ 2 ^ CeilingLog2 c.y_values.length :=
    le_pow_CeilingLog2 _ (by omega)
  have h := queryIdx_correct c hn (CeilingLog2 c.y_values.length) hk1 (Nat.le_refl _)
    0 lo hi (CeilingLog2 c.y_values.length + 1) (by simp) (by simp)
    hlh (by omega) (by omega)
  simpa [GetMinMaxOverIndexInterval] using h

theorem scanMinMax_none_iff (ys : List (Option ℚ)) (lo hi : ℕ) (h : lo ≤ hi) :
    scanMinMax ys lo hi = none ↔ ∀ i, lo ≤ i → i ≤ hi → yread ys i = none := by
  have h2 := scanMinMax_eq_none_iff ys (hi - lo) lo
  rw [show lo + (hi - lo) = hi by omega] at h2
  exact h2

/-! ### Facts about the binary searches -/

theorem findIdx_le_of_prop {p : ℚ → Bool} {xs : List ℚ} {i : ℕ}
    (hi : i < xs.length) (hp : p (xs.getD i 0) = true) : xs.findIdx p ≤ i := by
  by_contra hc
  have h2 := List.not_of_lt_findIdx (Nat.lt_of_not_le hc)
  rw [List.getD_eq_getElem xs 0 hi] at hp
  rw [hp] at h2
  cases h2

theorem findIdx_getD_prop {p : ℚ → Bool} {xs : List ℚ}
    (h : xs.findIdx p < xs.length) : p (xs.getD (xs.findIdx p) 0) = true := by
  rw [List.getD_eq_getElem xs 0 h]
  exact List.findIdx_getElem

/-- In a strictly increasing list every element is at most the last one. -/
theorem getD_le_getD_last {xs : List ℚ} (hs : List.Chain' (fun a b => a < b) xs) :
    ∀ i, i < xs.length → xs.getD i 0 ≤ xs.getD (xs.length - 1) 0 := by
  intro i hi
  have hp : List.Pairwise (fun a b => a < b) xs := List.chain'_iff_pairwise.mp hs
  have hlast : xs.length - 1 < xs.length := by omega
  rw [List.getD_eq_getElem xs 0 hi, List.getD_eq_getElem xs 0 hlast]
  rcases Nat.lt_or_ge i (xs.length - 1) with hlt | hge
  · exact le_of_lt (List.pairwise_iff_get.mp hp ⟨i, hi⟩ ⟨xs.length - 1, hlast⟩ hlt)
  · have : i = xs.length - 1 := by omega
    subst this
    exact le_refl _

/-! ### Branch behaviour of the domain query -/

theorem domain_lb_end (c : ExplicitSingleValueCurve2D) (xmin xmax : ℚ)
    (h : lowerIdx c xmin = c.x_values.length) :
    GetMinMaxOverDomainInterval c xmin xmax = .ok none := by
  simp only [GetMinMaxOverDomainInterval]
  rw [if_pos h]

theorem domain_ub_begin (c : ExplicitSingleValueCurve2D) (xmin xmax : ℚ)
    (h1 : lowerIdx c xmin ≠ c.x_values.length) (h2 : upperIdx c xmax = 0) :
    GetMinMaxOverDomainInterval c xmin xmax = .ok none := by
  simp only [GetMinMaxOverDomainInterval]
  rw [if_neg h1, if_pos h2]

theorem domain_no_interior (c : ExplicitSingleValueCurve2D) (xmin xmax : ℚ)
    (h1 : lowerIdx c xmin ≠ c.x_values.length) (h2 : upperIdx c xmax ≠ 0)
    (h3 : upperIdx c xmax - 1 < lowerIdx c xmin) :
    GetMinMaxOverDomainInterval c xmin xmax =
      .ok (GetMinMax (loInterp c xmin (lowerIdx c xmin))
        (hiInterp c xmax (upperIdx c xmax - 1))) := by
  simp only [GetMinMaxOverDomainInterval]
  rw [if_neg h1, if_neg h2, if_neg (by omega)]

theorem domain_full_correct (c : ExplicitSingleValueCurve2D) (hv : Valid c)
    (hn : 2 ≤ c.y_values.length) :
    GetMinMaxOverDomainInterval c (xread c.x_values 0)
        (xread c.x_values (c.x_values.length - 1)) =
      .ok (scanMinMax c.y_values 0 (c.y_values.length - 1)) := by
  obtain ⟨hlen, hne, hs⟩ := hv
  have hxlen : 0 < c.x_values.length := List.length_pos.mpr hne
  have hxlen2 : 2 ≤ c.x_values.length := by omega
  have hlb : lowerIdx c (xread c.x_values 0) = 0 := by
    unfold lowerIdx
    refine Nat.le_zero.mp (findIdx_le_of_prop hxlen ?_)
    simp [xread]
  have hub : upperIdx c (xread c.x_values (c.x_values.length - 1)) = c.x_values.length := by
    unfold upperIdx
    apply List.findIdx_eq_length.mpr
    intro x hx
    obtain ⟨i, hget⟩ := List.mem_iff_get.mp hx
    have hle := getD_le_getD_last hs i.1 i.2
    rw [List.getD_eq_getElem _ _ i.2] at hle
    simp only [decide_eq_false_iff_not, not_lt, xread]
    rw [← hget]
    simpa using hle
  have hloI : loInterp c (xread c.x_values 0) 0 = none := by
    unfold loInterp
    rw [if_neg]
    rintro ⟨-, h2, -⟩
    exact absurd h2 (lt_irrefl 0)
  have hhiI : hiInterp c (xread c.x_values (c.x_values.length - 1))
      (c.x_values.length - 1) = none := by
    unfold hiInterp
    rw [if_neg]
    rintro ⟨h1, -⟩
    exact absurd h1 (lt_irrefl _)
  have hquery := GetMinMaxOverIndexInterval_correct c hn 0 (c.x_values.length - 1)
    (Nat.zero_le _) (by omega)
  simp only [GetMinMaxOverDomainInterval]
  rw [hlb, if_neg (by omega), hub, if_neg (by omega), hloI, hhiI, if_pos (Nat.zero_le _),
    hquery, show c.x_values.length - 1 = c.y_values.length - 1 by omega]
  cases hscan : scanMinMax c.y_values 0 (c.y_values.length - 1) with
  | none => rfl
  | some mm =>
    show QueryResult.ok (some _) = _
    rw [Prod.mk.eta]

theorem yread_all_none_iff (ys : List (Option ℚ)) (h : 0 < ys.length) :
    (∀ i, i ≤ ys.length - 1 → yread ys i = none) ↔ ∀ y ∈ ys, y = none := by
  constructor
  · intro hall y hy
    obtain ⟨i, hget⟩ := List.mem_iff_get.mp hy
    have := hall i.1 (by omega)
    rw [yread, List.getD_eq_getElem _ _ i.2] at this
    rw [← hget]
    simpa using this
  · intro hall i hi
    rw [yread, List.getD_eq_getElem _ _ (by omega)]
    exact hall _ (List.getElem_mem _)

/-- `scanMinMax` really is the attained minimum and maximum: whenever it returns
`some (a, b)`, every non-gap value in range lies in `[a, b]`, and both `a` and
`b` are values attained in the range. -/
theorem scanMinMax_spec (ys : List (Option ℚ)) :
    ∀ cnt lo a b, scanMinMax ys lo (lo + cnt) = some (a, b) →
      ((∀ i v, lo ≤ i → i ≤ lo + cnt → yread ys i = some v → a ≤ v ∧ v ≤ b) ∧
       (∃ i, lo ≤ i ∧ i ≤ lo + cnt ∧ yread ys i = some a) ∧
       (∃ i, lo ≤ i ∧ i ≤ lo + cnt ∧ yread ys i = some b))
  | 0, lo, a, b, h => by
    rw [Nat.add_zero, scanMinMax_singleton] at h
    cases hy : yread ys lo with
    | none => rw [hy] at h; cases h
    | some v =>
      rw [hy] at h
      simp only [toMM, Option.map_some', Option.some.injEq, Prod.mk.injEq] at h
      obtain ⟨rfl, rfl⟩ := h
      refine ⟨?_, ⟨lo, Nat.le_refl _, by omega, hy⟩, ⟨lo, Nat.le_refl _, by omega, hy⟩⟩
      intro i v hi1 hi2 hv
      have : i = lo := by omega
      subst this
      rw [hy] at hv
      cases hv
      exact ⟨le_refl _, le_refl _⟩
  | cnt + 1, lo, a, b, h => by
    rw [show lo + (cnt + 1) = (lo + 1) + cnt by omega] at h ⊢
    rw [scanMinMax_split ys (Nat.le_refl lo) (by omega), scanMinMax_singleton] at h
    cases hy : yread ys lo with
    | none =>
      rw [hy] at h
      simp only [toMM, Option.map_none', mergeMM_none_left] at h
      obtain ⟨hfa, ⟨ia, hia1, hia2, hia3⟩, ⟨ib, hib1, hib2, hib3⟩⟩ :=
        scanMinMax_spec ys cnt (lo + 1) a b h
      refine ⟨?_, ⟨ia, by omega, hia2, hia3⟩, ⟨ib, by omega, hib2, hib3⟩⟩
      intro i v hi1 hi2 hv
      rcases Nat.eq_or_lt_of_le hi1 with rfl | hgt
      · rw [hy] at hv; cases hv
      · exact hfa i v (by omega) hi2 hv
    | some v =>
      rw [hy] at h
      cases hs : scanMinMax ys (lo + 1) (lo + 1 + cnt) with
      | none =>
        rw [hs] at h
        simp only [toMM, Option.map_some', mergeMM_none_right, Option.some.injEq,
          Prod.mk.injEq] at h
        obtain ⟨rfl, rfl⟩ := h
        have hgaps := (scanMinMax_eq_none_iff ys cnt (lo + 1)).mp hs
        refine ⟨?_, ⟨lo, Nat.le_refl _, by omega, hy⟩, ⟨lo, Nat.le_refl _, by omega, hy⟩⟩
        intro i v' hi1 hi2 hv
        rcases Nat.eq_or_lt_of_le hi1 with rfl | hgt
        · rw [hy] at hv
          cases hv
          exact ⟨le_refl _, le_refl _⟩
        · rw [hgaps i (by omega) hi2] at hv
          cases hv
      | some p =>
        obtain ⟨a', b'⟩ := p
        rw [hs] at h
        simp only [toMM, Option.map_some', mergeMM, Option.some.injEq, Prod.mk.injEq] at h
        obtain ⟨rfl, rfl⟩ := h
        obtain ⟨hfa, ⟨ia, hia1, hia2, hia3⟩, ⟨ib, hib1, hib2, hib3⟩⟩ :=
          scanMinMax_spec ys cnt (lo + 1) a' b' hs
        constructor
        · intro i v' hi1 hi2 hv
          rcases Nat.eq_or_lt_of_le hi1 with rfl | hgt
          · rw [hy] at hv
            cases hv
            exact ⟨min_le_left _ _, le_max_left _ _⟩
          · obtain ⟨h1, h2⟩ := hfa i v' (by omega) hi2 hv
            exact ⟨le_trans (min_le_right _ _) h1, le_trans h2 (le_max_right _ _)⟩
        constructor
        · rcases le_total v a' with hc | hc
          · exact ⟨lo, Nat.le_refl _, by omega, by rw [hy, min_eq_left hc]⟩
          · exact ⟨ia, by omega, hia2, by rw [hia3, min_eq_right hc]⟩
        · rcases le_total v b' with hc | hc
          · exact ⟨ib, by omega, hib2, by rw [hib3, max_eq_right hc]⟩
          · exact ⟨lo, Nat.le_refl _, by omega, by rw [hy, max_eq_left hc]⟩

theorem scanMinMax_minmax (ys : List (Option ℚ)) (lo hi : ℕ) (a b : ℚ) (hlh : lo ≤ hi)
    (h : scanMinMax ys lo hi = some (a, b)) :
    (∀ i v, lo ≤ i → i ≤ hi → yread ys i = some v → a ≤ v ∧ v ≤ b) ∧
    (∃ i, lo ≤ i ∧ i ≤ hi ∧ yread ys i = some a) ∧
    (∃ i, lo ≤ i ∧ i ≤ hi ∧ yread ys i = some b) := by
  have h2 := scanMinMax_spec ys (hi - lo) lo a b
  rw [show lo + (hi - lo) = hi by omega] at h2
  exact h2 h

/-! ### The claims -/

/-- C1 (as stated, for n = 1): the curve with the single sample `x = [0]`,
`y = [some 0]` is valid, and the in-contract query `lo = hi = 0 < n` does not
return the (min, max) of the y values in range: the tree was allocated with
`2^⌈log2 1⌉ − 1 = 0` nodes, and the exact-match test reads `intervals_[0]`,
past the end of the allocation. -/
theorem C1_counterexample :
    Valid ⟨[0], [some 0]⟩ ∧
    numIntervals ⟨[0], [some 0]⟩ = 0 ∧
    GetMinMaxOverIndexInterval ⟨[0], [some 0]⟩ 0 0 0 = .outOfBounds ∧
    GetMinMaxOverIndexInterval ⟨[0], [some 0]⟩ 0 0 0 ≠
      .ok (scanMinMax [some 0] 0 0) := by
  with_unfolding_all decide

/-- C1 (amended: n ≥ 2 instead of n ≥ 1): for every curve built from a strictly
increasing sample sequence of length n ≥ 2 and 0 ≤ lo ≤ hi < n,
`GetMinMaxOverIndexInterval(lo, hi, 0)` returns the (min, max) of the non-gap
y values at indices lo..hi (every non-gap value lies between the returned min
and max and both are attained), and returns empty exactly when every y value in
lo..hi is a gap. -/
theorem C1_index_range_query (c : ExplicitSingleValueCurve2D) (hv : Valid c)
    (hn : 2 ≤ c.y_values.length) (lo hi : ℕ) (hlh : lo ≤ hi)
    (hhi : hi < c.y_values.length) :
    GetMinMaxOverIndexInterval c lo hi 0 = .ok (scanMinMax c.y_values lo hi) ∧
    (∀ a b, scanMinMax c.y_values lo hi = some (a, b) →
      (∀ i v, lo ≤ i → i ≤ hi → yread c.y_values i = some v → a ≤ v ∧ v ≤ b) ∧
      (∃ i, lo ≤ i ∧ i ≤ hi ∧ yread c.y_values i = some a) ∧
      (∃ i, lo ≤ i ∧ i ≤ hi ∧ yread c.y_values i = some b)) ∧
    (scanMinMax c.y_values lo hi = none ↔
      ∀ i, lo ≤ i → i ≤ hi → yread c.y_values i = none) :=
  ⟨GetMinMaxOverIndexInterval_correct c hn lo hi hlh hhi,
   fun a b h => scanMinMax_minmax c.y_values lo hi a b hlh h,
   scanMinMax_none_iff c.y_values lo hi hlh⟩

/-- C1 witness: on the valid curve `x = [0,1,2]`, `y = [5, gap, 3]`, the query
over indices 0..2 returns the linear-scan result, which is `(3, 5)`. -/
theorem C1_witness :
    GetMinMaxOverIndexInterval ⟨[0, 1, 2], [some 5, none, some 3]⟩ 0 2 0 =
      .ok (scanMinMax [some 5, none, some 3] 0 2) ∧
    scanMinMax [some (5:ℚ), none, some 3] 0 2 = some (3, 5) :=
  ⟨(C1_index_range_query ⟨[0, 1, 2], [some 5, none, some 3]⟩ (by decide) (by decide)
      0 2 (by decide) (by decide)).1,
   by with_unfolding_all decide⟩

/-- C2 (as stated, for n = 1): on the valid single-sample curve `x = [0]`,
`y = [some 5]`, the full-domain query hits the zero-node tree read and does not
return the linear-scan result `(5, 5)`. -/
theorem C2_counterexample :
    Valid ⟨[0], [some 5]⟩ ∧
    GetMinMaxOverDomainInterval ⟨[0], [some 5]⟩ 0 0 = .outOfBounds ∧
    GetMinMaxOverDomainInterval ⟨[0], [some 5]⟩ 0 0 ≠
      .ok (scanMinMax [some 5] 0 0) := by
  with_unfolding_all decide

/-- C2 (amended: n ≥ 2 instead of n ≥ 1): for every valid curve with n ≥ 2
samples, `GetMinMaxOverDomainInterval(x[0], x[n-1])` equals the linear-scan
(min, max) over all non-gap y values, and is empty exactly when every y value
is a gap. -/
theorem C2_full_domain (c : ExplicitSingleValueCurve2D) (hv : Valid c)
    (hn : 2 ≤ c.y_values.length) :
    GetMinMaxOverDomainInterval c (xread c.x_values 0)
        (xread c.x_values (c.x_values.length - 1)) =
      .ok (scanMinMax c.y_values 0 (c.y_values.length - 1)) ∧
    (GetMinMaxOverDomainInterval c (xread c.x_values 0)
        (xread c.x_values (c.x_values.length - 1)) = .ok none ↔
      ∀ y ∈ c.y_values, y = none) := by
  have h1 := domain_full_correct c hv hn
  refine ⟨h1, ?_⟩
  rw [h1]
  constructor
  · intro h2
    have h3 : scanMinMax c.y_values 0 (c.y_values.length - 1) = none := by
      injection h2
    rw [← yread_all_none_iff c.y_values (by omega)]
    intro i hi
    exact (scanMinMax_none_iff c.y_values 0 (c.y_values.length - 1) (by omega)).mp h3
      i (by omega) hi
  · intro h2
    have h3 : scanMinMax c.y_values 0 (c.y_values.length - 1) = none :=
      (scanMinMax_none_iff c.y_values 0 (c.y_values.length - 1) (by omega)).mpr
        (fun i _ hi2 => (yread_all_none_iff c.y_values (by omega)).mpr h2 i hi2)
    rw [h3]

/-- C2 witness: on the valid curve `x = [0,1,2]`, `y = [5, gap, 3]`, the
full-domain query returns the linear-scan result, which is `(3, 5)`. -/
theorem C2_witness :
    GetMinMaxOverDomainInterval ⟨[0, 1, 2], [some 5, none, some 3]⟩
        (xread [0, 1, 2] 0) (xread [0, 1, 2] (([0, 1, 2] : List ℚ).length - 1)) =
      .ok (scanMinMax [some 5, none, some 3] 0
        (([some (5:ℚ), none, some 3] : List (Option ℚ)).length - 1)) ∧
    scanMinMax [some (5:ℚ), none, some 3] 0 2 = some (3, 5) :=
  ⟨(C2_full_domain ⟨[0, 1, 2], [some 5, none, some 3]⟩ (by decide) (by decide)).1,
   by with_unfolding_all decide⟩

/-- C3: the claim (leaf ranges stay ≤ n − 1) is what the code should satisfy,
but for n = 3 (k = ⌈log2 3⌉ = 2) the second bottom-layer leaf, at node index 2,
is constructed with range [2, 3]: its `hi_idx` is 3 > n − 1 = 2, and its
(min, max) is computed from `y_values_[3]`, one past the end of the vector. -/
theorem C3_leaf_out_of_range :
    Valid ⟨[0, 1, 2], [some 0, some 1, some 2]⟩ ∧
    CeilingLog2 3 = 2 ∧
    numIntervals ⟨[0, 1, 2], [some 0, some 1, some 2]⟩ = 3 ∧
    (intervals ⟨[0, 1, 2], [some 0, some 1, some 2]⟩ 2).lo_idx = 2 ∧
    (intervals ⟨[0, 1, 2], [some 0, some 1, some 2]⟩ 2).hi_idx = 3 ∧
    ¬((intervals ⟨[0, 1, 2], [some 0, some 1, some 2]⟩ 2).hi_idx ≤ 3 - 1) := by
  with_unfolding_all decide

/-- C4: the claim (all `intervals_` reads in bounds, including n = 1) is what
the code should satisfy, but for n = 1 the array is allocated with
`2^⌈log2 1⌉ − 1 = 0` nodes and the query still evaluates the exact-match test
on `intervals_[0]` before considering the `lo = hi` base case: the read is out
of bounds. -/
theorem C4_zero_nodes_read :
    Valid ⟨[0], [some 0]⟩ ∧
    CeilingLog2 1 = 0 ∧
    numIntervals ⟨[0], [some 0]⟩ = 0 ∧
    GetMinMaxOverIndexInterval ⟨[0], [some 0]⟩ 0 0 0 = .outOfBounds := by
  with_unfolding_all decide

/-- C5: after construction of any valid curve with n ≥ 2, every tree node above
the bottom layer (node index i with i + 1 < 2^(k−1)) stores exactly the
gap-aware combination of its two children's stored values. Stored nodes are a
pure function of the construction inputs: the model has no mutation, matching
the const-only query API. -/
theorem C5_internal_node_invariant (c : ExplicitSingleValueCurve2D) (hv : Valid c)
    (hn : 2 ≤ c.y_values.length) (i : ℕ)
    (hi : i + 1 < 2 ^ (CeilingLog2 c.y_values.length - 1)) :
    (intervals c i).min_max =
      mergeMM (intervals c (2 * i + 1)).min_max (intervals c (2 * i + 2)).min_max := by
  have hk1 : 1 ≤ CeilingLog2 c.y_values.length := one_le_CeilingLog2 _ hn
  have h1 : 2 ^ Nat.log2 (i + 1) ≤ i + 1 := Nat.log2_self_le (by omega)
  have h2 : i + 1 < 2 ^ (Nat.log2 (i + 1) + 1) := Nat.lt_log2_self
  have h3 : (2:ℕ) ^ (Nat.log2 (i + 1) + 1) = 2 ^ Nat.log2 (i + 1) * 2 :=
    pow_succ 2 (Nat.log2 (i + 1))
  have hpw : 1 ≤ (2:ℕ) ^ Nat.log2 (i + 1) := Nat.one_le_two_pow
  have hij : i = 2 ^ Nat.log2 (i + 1) - 1 + (i + 1 - 2 ^ Nat.log2 (i + 1)) := by omega
  have hjlt : i + 1 - 2 ^ Nat.log2 (i + 1) < 2 ^ Nat.log2 (i + 1) := by omega
  have hL1 : Nat.log2 (i + 1) + 1 ≤ CeilingLog2 c.y_values.length - 1 := by
    by_contra hcon
    push_neg at hcon
    have h4 : (2:ℕ) ^ (CeilingLog2 c.y_values.length - 1) ≤ 2 ^ Nat.log2 (i + 1) :=
      Nat.pow_le_pow_right (by omega) (by omega)
    omega
  have hc1 : 2 * i + 1 =
      2 ^ (Nat.log2 (i + 1) + 1) - 1 + 2 * (i + 1 - 2 ^ Nat.log2 (i + 1)) := by omega
  have hc2 : 2 * i + 2 =
      2 ^ (Nat.log2 (i + 1) + 1) - 1 + (2 * (i + 1 - 2 ^ Nat.log2 (i + 1)) + 1) := by omega
  rw [hc1, hc2,
    intervals_eq c hn (Nat.log2 (i + 1) + 1) (2 * (i + 1 - 2 ^ Nat.log2 (i + 1)))
      hL1 (by omega),
    intervals_eq c hn (Nat.log2 (i + 1) + 1) (2 * (i + 1 - 2 ^ Nat.log2 (i + 1)) + 1)
      hL1 (by omega),
    properNode_merge (CeilingLog2 c.y_values.length) c.y_values (Nat.log2 (i + 1))
      (i + 1 - 2 ^ Nat.log2 (i + 1)) (by omega)]
  conv_lhs => rw [hij]
  rw [intervals_eq c hn (Nat.log2 (i + 1)) (i + 1 - 2 ^ Nat.log2 (i + 1)) (by omega) hjlt]
  rfl

/-- C5 witness: on the curve `x = [0,1,2,3]`, `y = [0,1,2,3]` (n = 4, k = 2),
the root (node 0, the only node above the bottom layer) stores the combination
of its children, namely `(0, 3)`. -/
theorem C5_witness :
    (intervals ⟨[0, 1, 2, 3], [some 0, some 1, some 2, some 3]⟩ 0).min_max =
      mergeMM (intervals ⟨[0, 1, 2, 3], [some 0, some 1, some 2, some 3]⟩ 1).min_max
        (intervals ⟨[0, 1, 2, 3], [some 0, some 1, some 2, some 3]⟩ 2).min_max ∧
    (intervals ⟨[0, 1, 2, 3], [some 0, some 1, some 2, some 3]⟩ 0).min_max =
      some (0, 3) :=
  ⟨C5_internal_node_invariant ⟨[0, 1, 2, 3], [some 0, some 1, some 2, some 3]⟩
      (by decide) (by decide) 0 (by decide),
   by with_unfolding_all decide⟩

/-- C6: gaps suppress boundary interpolation and are excluded from aggregation:
for samples x = [0,1,2,3] and the query interval [0.5, 2.5], the values
[0, gap, gap, 3] give empty, [0, 1, gap, 3] give (0.5, 1.0), and
[0, gap, 2, 3] give (2.0, 2.5). -/
theorem C6_gap_suppression :
    GetMinMaxOverDomainInterval ⟨[0, 1, 2, 3], [some 0, none, none, some 3]⟩
      (1/2) (5/2) = .ok none ∧
    GetMinMaxOverDomainInterval ⟨[0, 1, 2, 3], [some 0, some 1, none, some 3]⟩
      (1/2) (5/2) = .ok (some (1/2, 1)) ∧
    GetMinMaxOverDomainInterval ⟨[0, 1, 2, 3], [some 0, none, some 2, some 3]⟩
      (1/2) (5/2) = .ok (some (2, 5/2)) := by
  with_unfolding_all decide

/-- C7: boundary interpolation on the curve x = [0,1,2], y = [0,1,2]:
query(0.5, 1.5) → (0.5, 1.5); query(1.5, 2.5) → (1.5, 2.0);
query(−0.5, 0.5) → (0.0, 0.5) (no interpolated value outside the domain). -/
theorem C7_boundary_interpolation :
    GetMinMaxOverDomainInterval ⟨[0, 1, 2], [some 0, some 1, some 2]⟩
      (1/2) (3/2) = .ok (some (1/2, 3/2)) ∧
    GetMinMaxOverDomainInterval ⟨[0, 1, 2], [some 0, some 1, some 2]⟩
      (3/2) (5/2) = .ok (some (3/2, 2)) ∧
    GetMinMaxOverDomainInterval ⟨[0, 1, 2], [some 0, some 1, some 2]⟩
      (-(1/2)) (1/2) = .ok (some (0, 1/2)) := by
  with_unfolding_all decide

/-- C8: whenever both binary searches succeed but no sample index lies in
[xmin, xmax] (hiIdx < loIdx), the domain query returns exactly the gap-aware
merge of the two boundary interpolations. -/
theorem C8_no_sample_in_range (c : ExplicitSingleValueCurve2D) (xmin xmax : ℚ)
    (hx : xmin ≤ xmax)
    (h1 : lowerIdx c xmin ≠ c.x_values.length)
    (h2 : upperIdx c xmax ≠ 0)
    (h3 : upperIdx c xmax - 1 < lowerIdx c xmin) :
    GetMinMaxOverDomainInterval c xmin xmax =
      .ok (GetMinMax (loInterp c xmin (lowerIdx c xmin))
        (hiInterp c xmax (upperIdx c xmax - 1))) :=
  domain_no_interior c xmin xmax h1 h2 h3

/-- C8 witness: x = [0,1,2], y = [0,1,2], query (1.25, 1.75): no sample index
lies in range and the result is the merge of the two interpolations,
(1.25, 1.75). -/
theorem C8_witness :
    GetMinMaxOverDomainInterval ⟨[0, 1, 2], [some 0, some 1, some 2]⟩ (5/4) (7/4) =
      .ok (GetMinMax
        (loInterp ⟨[0, 1, 2], [some 0, some 1, some 2]⟩ (5/4)
          (lowerIdx ⟨[0, 1, 2], [some 0, some 1, some 2]⟩ (5/4)))
        (hiInterp ⟨[0, 1, 2], [some 0, some 1, some 2]⟩ (7/4)
          (upperIdx ⟨[0, 1, 2], [some 0, some 1, some 2]⟩ (7/4) - 1))) ∧
    GetMinMaxOverDomainInterval ⟨[0, 1, 2], [some 0, some 1, some 2]⟩ (5/4) (7/4) =
      .ok (some (5/4, 7/4)) :=
  ⟨C8_no_sample_in_range ⟨[0, 1, 2], [some 0, some 1, some 2]⟩ (5/4) (7/4)
      (by with_unfolding_all decide) (by with_unfolding_all decide)
      (by with_unfolding_all decide) (by with_unfolding_all decide),
   by with_unfolding_all decide⟩

/-- C9: querying entirely outside the sample domain returns the empty optional,
as a normal result: if xmin exceeds every sample x, or xmax is less than every
sample x, `GetMinMaxOverDomainInterval` returns empty. -/
theorem C9_outside_domain (c : ExplicitSingleValueCurve2D) (xmin xmax : ℚ)
    (hv : Valid c)
    (h : (∀ x ∈ c.x_values, x < xmin) ∨ (∀ x ∈ c.x_values, xmax < x)) :
    GetMinMaxOverDomainInterval c xmin xmax = .ok none := by
  rcases h with hall | hall
  · apply domain_lb_end
    unfold lowerIdx
    apply List.findIdx_eq_length.mpr
    intro x hx
    simp only [decide_eq_false_iff_not, not_le]
    exact hall x hx
  · by_cases hlb : lowerIdx c xmin = c.x_values.length
    · exact domain_lb_end c xmin xmax hlb
    · apply domain_ub_begin c xmin xmax hlb
      unfold upperIdx
      cases hxs : c.x_values with
      | nil =>
        exfalso
        apply hlb
        unfold lowerIdx
        rw [hxs]
        rfl
      | cons a t =>
        rw [List.findIdx_cons]
        have ha : xmax < a := hall a (by rw [hxs]; exact List.mem_cons_self a t)
        simp [ha]

/-- C9 witness: x = [0,1,2], y = [0,1,2]: the queries (3, 4) and (−4, −3) both
return empty. -/
theorem C9_witness :
    GetMinMaxOverDomainInterval ⟨[0, 1, 2], [some 0, some 1, some 2]⟩ 3 4 = .ok none ∧
    GetMinMaxOverDomainInterval ⟨[0, 1, 2], [some 0, some 1, some 2]⟩ (-4) (-3) =
      .ok none :=
  ⟨C9_outside_domain ⟨[0, 1, 2], [some 0, some 1, some 2]⟩ 3 4 (by decide)
      (Or.inl (by decide)),
   C9_outside_domain ⟨[0, 1, 2], [some 0, some 1, some 2]⟩ (-4) (-3) (by decide)
      (Or.inr (by decide))⟩

/-- C10 (as stated): the claim says every query with xmin > xmax returns the
empty optional; on the valid curve x = [0,1], y = [0,1] the query
(xmin, xmax) = (0.5, 0.2) returns (0.2, 0.5), not empty: both boundary
interpolations fire and their merge is returned. -/
theorem C10_counterexample :
    Valid ⟨[0, 1], [some 0, some 1]⟩ ∧
    (1/5 : ℚ) < 1/2 ∧
    GetMinMaxOverDomainInterval ⟨[0, 1], [some 0, some 1]⟩ (1/2) (1/5) =
      .ok (some (1/5, 1/2)) ∧
    GetMinMaxOverDomainInterval ⟨[0, 1], [some 0, some 1]⟩ (1/2) (1/5) ≠ .ok none := by
  with_unfolding_all decide

/-- C10 (amended): for xmin > xmax the two binary searches always leave
hiIdx < loIdx, so the result is the gap-aware merge of the two boundary
interpolations when both search guards pass — which may be non-empty — and
empty otherwise. -/
theorem C10_reversed_bounds (c : ExplicitSingleValueCurve2D) (xmin xmax : ℚ)
    (hv : Valid c) (hx : xmax < xmin) :
    GetMinMaxOverDomainInterval c xmin xmax =
      .ok (if lowerIdx c xmin ≠ c.x_values.length ∧ upperIdx c xmax ≠ 0 then
        GetMinMax (loInterp c xmin (lowerIdx c xmin))
          (hiInterp c xmax (upperIdx c xmax - 1))
      else none) := by
  by_cases h1 : lowerIdx c xmin = c.x_values.length
  · rw [domain_lb_end c xmin xmax h1, if_neg (by simp [h1])]
  · by_cases h2 : upperIdx c xmax = 0
    · rw [domain_ub_begin c xmin xmax h1 h2, if_neg (by simp [h2])]
    · have hlt : lowerIdx c xmin < c.x_values.length :=
        Nat.lt_of_le_of_ne (List.findIdx_le_length _) h1
      have hple : xmin ≤ xread c.x_values (lowerIdx c xmin) := by
        have := findIdx_getD_prop (p := fun x => decide (xmin ≤ x)) hlt
        simpa [xread] using this
      have hub : upperIdx c xmax ≤ lowerIdx c xmin := by
        apply findIdx_le_of_prop hlt
        simp only [decide_eq_true_eq]
        exact lt_of_lt_of_le hx hple
      have h3 : upperIdx c xmax - 1 < lowerIdx c xmin := by omega
      rw [domain_no_interior c xmin xmax h1 h2 h3, if_pos ⟨h1, h2⟩]

/-- C10 witness: on x = [0,1], y = [0,1] with (xmin, xmax) = (0.5, 0.2) both
guards pass and the merge of the interpolations, (0.2, 0.5), is returned. -/
theorem C10_witness :
    GetMinMaxOverDomainInterval ⟨[0, 1], [some 0, some 1]⟩ (1/2) (1/5) =
      .ok (if lowerIdx ⟨[0, 1], [some 0, some 1]⟩ (1/2) ≠
            (([0, 1] : List ℚ)).length ∧
          upperIdx ⟨[0, 1], [some 0, some 1]⟩ (1/5) ≠ 0 then
        GetMinMax
          (loInterp ⟨[0, 1], [some 0, some 1]⟩ (1/2)
            (lowerIdx ⟨[0, 1], [some 0, some 1]⟩ (1/2)))
          (hiInterp ⟨[0, 1], [some 0, some 1]⟩ (1/5)
            (upperIdx ⟨[0, 1], [some 0, some 1]⟩ (1/5) - 1))
      else none) ∧
    GetMinMaxOverDomainInterval ⟨[0, 1], [some 0, some 1]⟩ (1/2) (1/5) =
      .ok (some (1/5, 1/2)) :=
  ⟨C10_reversed_bounds ⟨[0, 1], [some 0, some 1]⟩ (1/2) (1/5) (by decide)
      (by with_unfolding_all decide),
   by with_unfolding_all decide⟩

end Plot
